import Mathlib

/-!
Verification of the `rebalancer` package of digitalocean/archimedes.

The embedding below is a direct translation of `rebalancer.go` (plus the
data types of `ceph.go` that it consumes).  Weights, which are `float64`
in Go, are modelled as exact rationals `ℚ`; the arithmetic the rebalancer
performs on them (addition, `math.Min`, comparisons, multiplication and
division by `10^4`) is exact on the decimal inputs the program is used
with, so `ℚ` is faithful to the source expressions as written.

The external Ceph collaborator (`CephClient` in `ceph.go`) is modelled by
one record of per-cycle responses: each query either errs (`none`) or
returns a value, and `CrushReweight` succeeds or fails per call.  One call
to `DoReweight` consumes one such record and returns the successor state
together with the exact list of collaborator calls it issued, in order.
-/

namespace Archimedes

/-- Association list standing in for Go's `map[int]float64`. -/
abbrev WMap := List (Int × ℚ)

/-- Go map read `v, ok := m[k]`: `some v` when the key is present. -/
def mapLookup : WMap → Int → Option ℚ
  | [], _ => none
  | p :: rest, k => if p.1 = k then some p.2 else mapLookup rest k

/-- Go `delete(m, k)`. -/
def mapErase : WMap → Int → WMap
  | [], _ => []
  | p :: rest, k => if p.1 = k then mapErase rest k else p :: mapErase rest k

/-- Go map write `m[k] = v` (overwrite semantics). -/
def mapInsert (m : WMap) (k : Int) (v : ℚ) : WMap :=
  mapErase m k ++ [(k, v)]

/-- `nodeType` from `ceph.go`: one entry of the parsed `ceph osd tree`
output.  The Go field `Type` is rendered `ntype` (`Type` is not a legal
field name in Lean). -/
structure nodeType where
  ID : Int
  Name : String
  ntype : String
  Status : String
  Reweight : ℚ
  CrushWeight : ℚ

/-- `OSDTreeOut` from `ceph.go`. -/
structure OSDTreeOut where
  Nodes : List nodeType
  Stray : List nodeType

/-- One collaborator call issued by the rebalancer during a cycle. -/
inductive CephCall
  | backfillingPGs
  | recoveringPGs
  | osdTree
  | crushReweight (osdID : Int) (crushWeight : ℚ)
  deriving DecidableEq

/-- The collaborator's behaviour for one cycle: each query either fails
(`none`, the `error` return in Go) or returns its value; `crushReweight`
answers `true` on success and `false` on error, per `(osd, weight)`. -/
structure CephResp where
  backfillingPGs : Option Int
  recoveringPGs : Option Int
  osdTree : Option OSDTreeOut
  crushReweight : Int → ℚ → Bool

/-- The `Rebalancer` struct of `rebalancer.go`, restricted to the fields
`DoReweight` reads or writes.  `ceph` is supplied per cycle as a
`CephResp`; `sleepInterval` and the two prometheus descriptors play no
part in reweighting. -/
structure Rebalancer where
  maxBackfillPGsAllowed : Int
  maxRecoveryPGsAllowed : Int
  targetCrushWeightMap : WMap
  weightIncrement : ℚ
  dryRun : Bool
  crushWeightMap : WMap

/-- `roundToPlaces` constant from `rebalancer.go`. -/
def roundToPlaces : ℕ := 4

/-- The next-weight expression of `DoReweight` (rebalancer.go lines
171-172), verbatim:
`tenExp := math.Pow10(roundToPlaces);`
`weight := math.Min(((cw+r.weightIncrement)*tenExp)/tenExp, tw)`.
Note the expression multiplies and divides by `10^4` but never rounds. -/
def plannedWeight (cw inc tw : ℚ) : ℚ :=
  let tenExp : ℚ := 10 ^ roundToPlaces
  min (((cw + inc) * tenExp) / tenExp) tw

/-- Outcome of the per-OSD body of `DoReweight` for a single entry of
`targetCrushWeightMap`. -/
inductive NodeAction
  | dropMissing
  | dropAchieved
  | dropNonPositive
  | dropPlateau
  | dropDryRun
  | applyWeight (weight : ℚ) (ok : Bool)
  deriving DecidableEq

/-- Decision taken by the per-OSD body of `DoReweight` (rebalancer.go
lines 150-206) for the entry `(osd, tw)`, given the current-weight view
`cws`, the ledger `ledger` (`crushWeightMap`) and the collaborator's
reweight outcome `rw`.  The branches appear in source order. -/
def nodeAction (rw : Int → ℚ → Bool) (dryRun : Bool) (inc : ℚ)
    (cws ledger : WMap) (osd : Int) (tw : ℚ) : NodeAction :=
  match mapLookup cws osd with
  | none => .dropMissing
  | some cw =>
    if cw ≥ tw then .dropAchieved
    else
      let weight := plannedWeight cw inc tw
      if weight ≤ 0 then .dropNonPositive
      else if mapLookup ledger osd = some weight then .dropPlateau
      else if dryRun then .dropDryRun
      else .applyWeight weight (rw osd weight)

/-- Tests whether a `NodeAction` is the live-apply outcome. -/
def NodeAction.isApplyAction : NodeAction → Bool
  | .applyWeight _ _ => true
  | _ => false

/-- Mutable state threaded through the per-OSD loop of `DoReweight`,
plus the trace of issued collaborator calls. -/
structure CycleAcc where
  targetCrushWeightMap : WMap
  crushWeightMap : WMap
  calls : List CephCall

/-- One iteration of the `for osd, tw := range r.targetCrushWeightMap`
loop of `DoReweight`.  Every `drop*` outcome executes
`delete(r.targetCrushWeightMap, osd); continue`.  `applyWeight` executes
`r.doReweight(osd, weight)` (rebalancer.go lines 231-234): the ledger
write `r.crushWeightMap[osdID] = crushWeight` happens before the
collaborator call, and an erring call only changes what is logged, so the
state effect is the same for `ok = true` and `ok = false`. -/
def processOSD (c : CephResp) (dryRun : Bool) (inc : ℚ) (cws : WMap)
    (acc : CycleAcc) (e : Int × ℚ) : CycleAcc :=
  match nodeAction c.crushReweight dryRun inc cws acc.crushWeightMap e.1 e.2 with
  | .applyWeight w _ =>
      { acc with crushWeightMap := mapInsert acc.crushWeightMap e.1 w,
                 calls := acc.calls ++ [.crushReweight e.1 w] }
  | _ => { acc with targetCrushWeightMap := mapErase acc.targetCrushWeightMap e.1 }

/-- `extractCurrentWeights` from rebalancer.go (lines 209-229).  When the
`OSDTree` query errs the Go function returns `nil`; every lookup in a
`nil` map misses, so the erring case is the empty list. -/
def extractCurrentWeights (c : CephResp) (r : Rebalancer) : WMap :=
  match c.osdTree with
  | none => []
  | some out =>
    out.Nodes.foldl (fun osdsToReweight node =>
      if node.ntype ≠ "osd" then osdsToReweight
      else if (mapLookup r.targetCrushWeightMap node.ID).isSome then
        mapInsert osdsToReweight node.ID node.CrushWeight
      else osdsToReweight) []

/-- `DoReweight` from rebalancer.go (lines 125-207): gate on backfilling
then recovering PG counts, snapshot current weights, then run the per-OSD
loop.  Returns the successor state and the ordered trace of collaborator
calls made during the cycle. -/
def DoReweight (c : CephResp) (r : Rebalancer) : Rebalancer × List CephCall :=
  match c.backfillingPGs with
  | none => (r, [.backfillingPGs])
  | some bpgs =>
    if bpgs > r.maxBackfillPGsAllowed then (r, [.backfillingPGs])
    else
      match c.recoveringPGs with
      | none => (r, [.backfillingPGs, .recoveringPGs])
      | some rpgs =>
        if rpgs > r.maxRecoveryPGsAllowed then (r, [.backfillingPGs, .recoveringPGs])
        else
          let cws := extractCurrentWeights c r
          let res := r.targetCrushWeightMap.foldl
            (processOSD c r.dryRun r.weightIncrement cws)
            ⟨r.targetCrushWeightMap, r.crushWeightMap, []⟩
          ({ r with targetCrushWeightMap := res.targetCrushWeightMap,
                    crushWeightMap := res.crushWeightMap },
           [.backfillingPGs, .recoveringPGs, .osdTree] ++ res.calls)

/-- The snapshot-plus-per-OSD-loop part of `DoReweight`, i.e. everything
that runs once the gate has passed. -/
def cycleCore (c : CephResp) (r : Rebalancer) : CycleAcc :=
  r.targetCrushWeightMap.foldl
    (processOSD c r.dryRun r.weightIncrement (extractCurrentWeights c r))
    ⟨r.targetCrushWeightMap, r.crushWeightMap, []⟩

/-- Recognizes a `CrushReweight` collaborator call. -/
def isApply : CephCall → Bool
  | .crushReweight _ _ => true
  | _ => false

/-- The apply (reweight) commands contained in a call trace. -/
def applies (calls : List CephCall) : List CephCall :=
  calls.filter isApply

/-- Recognizes a `CrushReweight` call aimed at a given OSD. -/
def isApplyFor (osd : Int) : CephCall → Bool
  | .crushReweight o _ => o = osd
  | _ => false

/-- The apply commands aimed at a given OSD within a call trace. -/
def osdCalls (calls : List CephCall) (osd : Int) : List CephCall :=
  calls.filter (isApplyFor osd)

/-- Modelled from the spec: the rounding the Weight Planner's step 2
describes ("rounded to a fixed decimal precision (4 places)"), i.e. Go's
`math.Round` (half away from zero).  The source of `rebalancer.go`
contains no such `math.Round` call; this definition exists only to
compare the spec's wording with `plannedWeight`. -/
def specRound (x : ℚ) : ℤ :=
  if x ≥ 0 then ⌊x + 1/2⌋ else -⌊-x + 1/2⌋

/-- Modelled from the spec: `round(current + inc, 4)` as the spec writes
it in the plateau invariant and in Weight Planner step 2. -/
def specRoundTo4 (x : ℚ) : ℚ :=
  (specRound (x * 10 ^ roundToPlaces) : ℚ) / 10 ^ roundToPlaces

/-! ### Concrete states used by counterexamples and witnesses -/

/-- Tree entry of kind "osd" with the given id and CRUSH weight. -/
def osdNode (id : Int) (w : ℚ) : nodeType := ⟨id, "", "osd", "", 1, w⟩

/-- Live-mode state managing OSD 1 toward weight 4, increment 1. -/
def rW : Rebalancer := ⟨10, 10, [(1, 4)], 1, false, []⟩

/-- Collaborator reporting 100 backfilling PGs (gate ceiling is 10). -/
def cGateHigh : CephResp := ⟨some 100, some 0, some ⟨[osdNode 1 0], []⟩, fun _ _ => true⟩

/-- Collaborator whose tree reports OSD 1 already at weight 5. -/
def cAch : CephResp := ⟨some 0, some 0, some ⟨[osdNode 1 5], []⟩, fun _ _ => true⟩

/-- Collaborator whose backfilling-PGs query errs. -/
def cBackErr : CephResp := ⟨none, some 0, some ⟨[], []⟩, fun _ _ => true⟩

/-- Collaborator whose topology (OSDTree) query errs. -/
def cTreeErr : CephResp := ⟨some 0, some 0, none, fun _ _ => true⟩

/-- Live-mode state managing OSD 1 toward weight 5, increment 1. -/
def rC1 : Rebalancer := ⟨10, 10, [(1, 5)], 1, false, []⟩

/-- Collaborator reporting OSD 1 at weight 2 whose reweight command
always fails. -/
def cApplyFail : CephResp := ⟨some 0, some 0, some ⟨[osdNode 1 2], []⟩, fun _ _ => false⟩

/-- Live-mode state for the plateau scenario: target 1 for OSD 1,
increment 0.00001, ledger already holding 0.01 for OSD 1. -/
def r4 : Rebalancer := ⟨10, 10, [(1, 1)], 1/100000, false, [(1, 1/100)]⟩

/-- Collaborator reporting OSD 1 at weight 0.01. -/
def c4 : CephResp := ⟨some 0, some 0, some ⟨[osdNode 1 (1/100)], []⟩, fun _ _ => true⟩

/-- Live-mode state managing OSD 1 toward weight 10, increment 1. -/
def rC5 : Rebalancer := ⟨10, 10, [(1, 10)], 1, false, []⟩

/-- Collaborator reporting OSD 1 at weight 5. -/
def cSnapHigh : CephResp := ⟨some 0, some 0, some ⟨[osdNode 1 5], []⟩, fun _ _ => true⟩

/-- Collaborator reporting OSD 1 at weight 0. -/
def cSnapLow : CephResp := ⟨some 0, some 0, some ⟨[osdNode 1 0], []⟩, fun _ _ => true⟩

/-- Dry-run state managing OSD 1 toward weight 5, increment 1. -/
def rDry : Rebalancer := ⟨10, 10, [(1, 5)], 1, true, []⟩

/-- Collaborator reporting OSD 1 at weight 2, all commands succeeding. -/
def cDry : CephResp := ⟨some 0, some 0, some ⟨[osdNode 1 2], []⟩, fun _ _ => true⟩

/-- The spec's zero-increment scenario state: targets `{1: 7.4999,
2: 15.4999}`, increment 0, live mode. -/
def r8 : Rebalancer := ⟨10, 10, [(1, 74999/10000), (2, 154999/10000)], 0, false, []⟩

/-- Collaborator with a topology containing zero nodes. -/
def c8 : CephResp := ⟨some 0, some 0, some ⟨[], []⟩, fun _ _ => true⟩

end Archimedes

namespace Archimedes

/-! ### Support lemmas about the map operations -/

lemma mapLookup_mapErase_self (m : WMap) (k : Int) :
    mapLookup (mapErase m k) k = none := by
  induction m with
  | nil => simp [mapErase, mapLookup]
  | cons p rest ih =>
    by_cases hpk : p.1 = k <;> simp [mapErase, mapLookup, hpk, ih]

lemma mapLookup_mapErase_ne (m : WMap) (k j : Int) (h : j ≠ k) :
    mapLookup (mapErase m k) j = mapLookup m j := by
  induction m with
  | nil => simp [mapErase]
  | cons p rest ih =>
    by_cases hpk : p.1 = k
    · have hpj : p.1 ≠ j := by rw [hpk]; exact fun hc => h hc.symm
      rw [mapErase, if_pos hpk, ih, mapLookup, if_neg hpj]
    · rw [mapErase, if_neg hpk]
      by_cases hpj : p.1 = j
      · rw [mapLookup, mapLookup, if_pos hpj, if_pos hpj]
      · rw [mapLookup, mapLookup, if_neg hpj, if_neg hpj, ih]

lemma mapLookup_append (a b : WMap) (j : Int) :
    mapLookup (a ++ b) j =
      match mapLookup a j with
      | some v => some v
      | none => mapLookup b j := by
  induction a with
  | nil => simp [mapLookup]
  | cons p rest ih =>
    by_cases hpj : p.1 = j <;> simp [mapLookup, hpj, ih]

lemma mapLookup_mapInsert_self (m : WMap) (k : Int) (v : ℚ) :
    mapLookup (mapInsert m k v) k = some v := by
  simp [mapInsert, mapLookup_append, mapLookup_mapErase_self, mapLookup]

lemma mapLookup_mapInsert_ne (m : WMap) (k j : Int) (v : ℚ) (h : j ≠ k) :
    mapLookup (mapInsert m k v) j = mapLookup m j := by
  have hkj : ¬ (k = j) := fun hc => h hc.symm
  simp only [mapInsert, mapLookup_append, mapLookup_mapErase_ne m k j h]
  cases hm : mapLookup m j <;> simp [mapLookup, hkj]

lemma mapLookup_eq_some_mem {m : WMap} {k : Int} {v : ℚ}
    (h : mapLookup m k = some v) : (k, v) ∈ m := by
  induction m with
  | nil => simp [mapLookup] at h
  | cons p rest ih =>
    by_cases hpk : p.1 = k
    · simp only [mapLookup, hpk, if_pos] at h
      have hp : p = (k, v) := by
        obtain ⟨p1, p2⟩ := p
        simp only at hpk
        simp only [Option.some.injEq] at h
        simp [hpk, h]
      simp [hp]
    · simp only [mapLookup, hpk, if_false] at h
      exact List.mem_cons_of_mem _ (ih h)

lemma mem_mapErase {p : Int × ℚ} {m : WMap} {k : Int} :
    p ∈ mapErase m k ↔ p ∈ m ∧ p.1 ≠ k := by
  induction m with
  | nil => simp [mapErase]
  | cons q rest ih =>
    by_cases hqk : q.1 = k
    · simp only [mapErase, hqk, if_pos, ih, List.mem_cons]
      constructor
      · rintro ⟨h1, h2⟩; exact ⟨Or.inr h1, h2⟩
      · rintro ⟨h1 | h1, h2⟩
        · exact absurd (h1 ▸ hqk) h2
        · exact ⟨h1, h2⟩
    · simp only [mapErase, hqk, if_false, List.mem_cons, ih]
      constructor
      · rintro (h | ⟨h1, h2⟩)
        · exact ⟨Or.inl h, h ▸ hqk⟩
        · exact ⟨Or.inr h1, h2⟩
      · rintro ⟨h1 | h1, h2⟩
        · exact Or.inl h1
        · exact Or.inr ⟨h1, h2⟩

/-! ### The planned weight: the mul-div pair is exact, no rounding occurs -/

lemma plannedWeight_eq (cw inc tw : ℚ) :
    plannedWeight cw inc tw = min (cw + inc) tw := by
  unfold plannedWeight
  norm_num [roundToPlaces]

/-! ### nodeAction lemmas -/

/-- The action taken for an OSD depends on the ledger only through the
ledger's entry for that OSD. -/
lemma nodeAction_congr (rw : Int → ℚ → Bool) (d : Bool) (inc : ℚ)
    (cws l1 l2 : WMap) (osd : Int) (tw : ℚ)
    (h : mapLookup l1 osd = mapLookup l2 osd) :
    nodeAction rw d inc cws l1 osd tw = nodeAction rw d inc cws l2 osd tw := by
  unfold nodeAction
  rw [h]

lemma nodeAction_apply_inv {rw : Int → ℚ → Bool} {d : Bool} {inc : ℚ}
    {cws ledger : WMap} {osd : Int} {tw w : ℚ} {ok : Bool}
    (h : nodeAction rw d inc cws ledger osd tw = .applyWeight w ok) :
    ∃ cw, mapLookup cws osd = some cw ∧ cw < tw ∧
      w = plannedWeight cw inc tw ∧ 0 < w ∧
      mapLookup ledger osd ≠ some w ∧ d = false ∧ ok = rw osd w := by
  unfold nodeAction at h
  cases hcw : mapLookup cws osd with
  | none => rw [hcw] at h; exact absurd h (by simp)
  | some cw =>
    simp only [hcw] at h
    by_cases h1 : cw ≥ tw
    · rw [if_pos h1] at h; exact absurd h (by simp)
    rw [if_neg h1] at h
    by_cases h2 : plannedWeight cw inc tw ≤ 0
    · rw [if_pos h2] at h; exact absurd h (by simp)
    rw [if_neg h2] at h
    by_cases h3 : mapLookup ledger osd = some (plannedWeight cw inc tw)
    · rw [if_pos h3] at h; exact absurd h (by simp)
    rw [if_neg h3] at h
    by_cases h4 : d = true
    · rw [if_pos h4] at h; exact absurd h (by simp)
    rw [if_neg h4] at h
    injection h with hw hok
    refine ⟨cw, rfl, not_le.mp h1, hw.symm, hw ▸ not_le.mp h2, hw ▸ h3, ?_, hw ▸ hok.symm⟩
    revert h4
    cases d <;> simp

lemma nodeAction_dryRun_not_apply {rw : Int → ℚ → Bool} {inc : ℚ}
    {cws ledger : WMap} {osd : Int} {tw w : ℚ} {ok : Bool}
    (h : nodeAction rw true inc cws ledger osd tw = .applyWeight w ok) : False := by
  obtain ⟨_, _, _, _, _, _, hd, _⟩ := nodeAction_apply_inv h
  exact absurd hd (by simp)

lemma nodeAction_eq_applyWeight {rw : Int → ℚ → Bool} {inc : ℚ}
    {cws ledger : WMap} {osd : Int} {tw cw : ℚ}
    (h1 : mapLookup cws osd = some cw) (h2 : cw < tw)
    (h3 : 0 < plannedWeight cw inc tw)
    (h4 : mapLookup ledger osd ≠ some (plannedWeight cw inc tw)) :
    nodeAction rw false inc cws ledger osd tw =
      .applyWeight (plannedWeight cw inc tw)
        (rw osd (plannedWeight cw inc tw)) := by
  simp only [nodeAction, h1]
  rw [if_neg (not_le.mpr h2), if_neg (not_le.mpr h3), if_neg h4]
  simp

lemma isApplyAction_true {A : NodeAction} (h : A.isApplyAction = true) :
    ∃ w ok, A = .applyWeight w ok := by
  cases A
  case applyWeight w ok => exact ⟨w, ok, rfl⟩
  all_goals simp [NodeAction.isApplyAction] at h

lemma nodeAction_dryRun_isApply_false (rw : Int → ℚ → Bool) (inc : ℚ)
    (cws ledger : WMap) (osd : Int) (tw : ℚ) :
    (nodeAction rw true inc cws ledger osd tw).isApplyAction = false := by
  by_cases hb : (nodeAction rw true inc cws ledger osd tw).isApplyAction = true
  · obtain ⟨w, ok, hA⟩ := isApplyAction_true hb
    exact absurd hA (fun hc => nodeAction_dryRun_not_apply hc)
  · exact Bool.not_eq_true _ ▸ hb

/-! ### processOSD step lemmas -/

lemma processOSD_applyWeight {c : CephResp} {d : Bool} {inc : ℚ} {cws : WMap}
    {acc : CycleAcc} {e : Int × ℚ} {w : ℚ} {ok : Bool}
    (hA : nodeAction c.crushReweight d inc cws acc.crushWeightMap e.1 e.2
        = .applyWeight w ok) :
    processOSD c d inc cws acc e =
      { acc with crushWeightMap := mapInsert acc.crushWeightMap e.1 w,
                 calls := acc.calls ++ [.crushReweight e.1 w] } := by
  unfold processOSD
  rw [hA]

lemma processOSD_drop {c : CephResp} {d : Bool} {inc : ℚ} {cws : WMap}
    {acc : CycleAcc} {e : Int × ℚ}
    (hA : (nodeAction c.crushReweight d inc cws acc.crushWeightMap e.1 e.2).isApplyAction
        = false) :
    processOSD c d inc cws acc e =
      { acc with targetCrushWeightMap := mapErase acc.targetCrushWeightMap e.1 } := by
  unfold processOSD
  cases hA2 : nodeAction c.crushReweight d inc cws acc.crushWeightMap e.1 e.2
  case applyWeight w ok => rw [hA2] at hA; simp [NodeAction.isApplyAction] at hA
  all_goals rfl

/-! ### Trace filter lemmas -/

lemma osdCalls_append (a b : List CephCall) (osd : Int) :
    osdCalls (a ++ b) osd = osdCalls a osd ++ osdCalls b osd := by
  simp [osdCalls, List.filter_append]

lemma applies_append (a b : List CephCall) :
    applies (a ++ b) = applies a ++ applies b := by
  simp [applies, List.filter_append]

lemma osdCalls_single_same (osd : Int) (w : ℚ) :
    osdCalls [.crushReweight osd w] osd = [.crushReweight osd w] := by
  simp [osdCalls, isApplyFor]

lemma osdCalls_single_other {o osd : Int} (h : o ≠ osd) (w : ℚ) :
    osdCalls [.crushReweight o w] osd = [] := by
  simp [osdCalls, isApplyFor, h]

/-! ### One fold step leaves other OSDs' views untouched -/

lemma processOSD_view {c : CephResp} {d : Bool} {inc : ℚ} {cws : WMap}
    (acc : CycleAcc) (e : Int × ℚ) (osd : Int) (h : e.1 ≠ osd) :
    mapLookup (processOSD c d inc cws acc e).targetCrushWeightMap osd
      = mapLookup acc.targetCrushWeightMap osd ∧
    mapLookup (processOSD c d inc cws acc e).crushWeightMap osd
      = mapLookup acc.crushWeightMap osd ∧
    osdCalls (processOSD c d inc cws acc e).calls osd = osdCalls acc.calls osd := by
  by_cases hb : (nodeAction c.crushReweight d inc cws acc.crushWeightMap e.1 e.2).isApplyAction
      = true
  · obtain ⟨w, ok, hA⟩ := isApplyAction_true hb
    rw [processOSD_applyWeight hA]
    refine ⟨rfl, ?_, ?_⟩
    · exact mapLookup_mapInsert_ne _ _ _ _ (Ne.symm h)
    · rw [osdCalls_append, osdCalls_single_other h, List.append_nil]
  · rw [processOSD_drop (Bool.not_eq_true _ ▸ hb)]
    exact ⟨mapLookup_mapErase_ne _ _ _ (Ne.symm h), rfl, rfl⟩

lemma foldl_view (c : CephResp) (d : Bool) (inc : ℚ) (cws : WMap) (osd : Int) :
    ∀ (l : WMap) (acc : CycleAcc), osd ∉ l.map Prod.fst →
    mapLookup (l.foldl (processOSD c d inc cws) acc).targetCrushWeightMap osd
      = mapLookup acc.targetCrushWeightMap osd ∧
    mapLookup (l.foldl (processOSD c d inc cws) acc).crushWeightMap osd
      = mapLookup acc.crushWeightMap osd ∧
    osdCalls (l.foldl (processOSD c d inc cws) acc).calls osd = osdCalls acc.calls osd := by
  intro l
  induction l with
  | nil => exact fun acc _ => ⟨rfl, rfl, rfl⟩
  | cons e l' ih =>
    intro acc hnm
    rw [List.map_cons, List.mem_cons] at hnm
    push_neg at hnm
    obtain ⟨h1, h2⟩ := hnm
    rw [List.foldl_cons]
    obtain ⟨hv1, hv2, hv3⟩ := @processOSD_view c d inc cws acc e osd (Ne.symm h1)
    obtain ⟨i1, i2, i3⟩ := ih (processOSD c d inc cws acc e) h2
    exact ⟨i1.trans hv1, i2.trans hv2, i3.trans hv3⟩

end Archimedes

namespace Archimedes

/-! ### The per-OSD characterization of the cycle fold -/

lemma foldl_key (c : CephResp) (d : Bool) (inc : ℚ) (cws : WMap) :
    ∀ (l : WMap) (acc : CycleAcc) (osd : Int) (tw : ℚ),
      (l.map Prod.fst).Nodup → (osd, tw) ∈ l →
      (∀ w ok,
          nodeAction c.crushReweight d inc cws acc.crushWeightMap osd tw
            = .applyWeight w ok →
          mapLookup (l.foldl (processOSD c d inc cws) acc).targetCrushWeightMap osd
              = mapLookup acc.targetCrushWeightMap osd ∧
          mapLookup (l.foldl (processOSD c d inc cws) acc).crushWeightMap osd = some w ∧
          osdCalls (l.foldl (processOSD c d inc cws) acc).calls osd
              = osdCalls acc.calls osd ++ [.crushReweight osd w]) ∧
      ((nodeAction c.crushReweight d inc cws acc.crushWeightMap osd tw).isApplyAction
            = false →
          mapLookup (l.foldl (processOSD c d inc cws) acc).targetCrushWeightMap osd
              = none ∧
          mapLookup (l.foldl (processOSD c d inc cws) acc).crushWeightMap osd
              = mapLookup acc.crushWeightMap osd ∧
          osdCalls (l.foldl (processOSD c d inc cws) acc).calls osd
              = osdCalls acc.calls osd) := by
  intro l
  induction l with
  | nil => intro acc osd tw _ hmem; exact absurd hmem (List.not_mem_nil _)
  | cons e l' ih =>
    intro acc osd tw hnd hmem
    rw [List.map_cons, List.nodup_cons] at hnd
    obtain ⟨hne, hnd'⟩ := hnd
    rw [List.foldl_cons]
    rcases List.mem_cons.mp hmem with heq | hmem'
    · -- the entry for `osd` is processed first, the rest of the list
      -- cannot touch `osd` again
      have he1 : e.1 = osd := by rw [← heq]
      have he2 : e.2 = tw := by rw [← heq]
      have hosd : osd ∉ l'.map Prod.fst := he1 ▸ hne
      constructor
      · intro w ok hA
        have hA' : nodeAction c.crushReweight d inc cws acc.crushWeightMap e.1 e.2
            = .applyWeight w ok := by rw [he1, he2]; exact hA
        rw [processOSD_applyWeight hA']
        obtain ⟨v1, v2, v3⟩ := foldl_view c d inc cws osd l' _ hosd
        refine ⟨v1, ?_, ?_⟩
        · rw [v2]
          simp only [he1]
          exact mapLookup_mapInsert_self _ _ _
        · rw [v3]
          simp only [he1]
          rw [osdCalls_append, osdCalls_single_same]
      · intro hA
        have hA' : (nodeAction c.crushReweight d inc cws acc.crushWeightMap
            e.1 e.2).isApplyAction = false := by rw [he1, he2]; exact hA
        rw [processOSD_drop hA']
        obtain ⟨v1, v2, v3⟩ := foldl_view c d inc cws osd l' _ hosd
        refine ⟨?_, v2, v3⟩
        rw [v1]
        simp only [he1]
        exact mapLookup_mapErase_self _ _
    · -- the head entry is for a different OSD
      have hosd : osd ∈ l'.map Prod.fst := by
        have := List.mem_map_of_mem Prod.fst hmem'
        simpa using this
      have he1 : e.1 ≠ osd := fun hc => hne (hc ▸ hosd)
      obtain ⟨v1, v2, v3⟩ := @processOSD_view c d inc cws acc e osd he1
      have hcongr : nodeAction c.crushReweight d inc cws
            (processOSD c d inc cws acc e).crushWeightMap osd tw
          = nodeAction c.crushReweight d inc cws acc.crushWeightMap osd tw :=
        nodeAction_congr _ _ _ _ _ _ _ _ v2
      obtain ⟨iApply, iDrop⟩ := ih (processOSD c d inc cws acc e) osd tw hnd' hmem'
      constructor
      · intro w ok hA
        obtain ⟨j1, j2, j3⟩ := iApply w ok (hcongr.trans hA)
        exact ⟨j1.trans v1, j2, j3.trans (by rw [v3])⟩
      · intro hA
        obtain ⟨j1, j2, j3⟩ := iDrop (by rw [hcongr]; exact hA)
        exact ⟨j1, j2.trans v2, j3.trans v3⟩

/-! ### Gate unfoldings of DoReweight -/

lemma cycleCore_def (c : CephResp) (r : Rebalancer) :
    cycleCore c r = r.targetCrushWeightMap.foldl
      (processOSD c r.dryRun r.weightIncrement (extractCurrentWeights c r))
      ⟨r.targetCrushWeightMap, r.crushWeightMap, []⟩ := rfl

lemma DoReweight_backfill_err {c : CephResp} (r : Rebalancer)
    (hb : c.backfillingPGs = none) :
    DoReweight c r = (r, [.backfillingPGs]) := by
  unfold DoReweight
  rw [hb]

lemma DoReweight_backfill_high {c : CephResp} (r : Rebalancer) {b : Int}
    (hb : c.backfillingPGs = some b) (hgt : b > r.maxBackfillPGsAllowed) :
    DoReweight c r = (r, [.backfillingPGs]) := by
  unfold DoReweight
  rw [hb]
  simp only [if_pos hgt]

lemma DoReweight_recovery_err {c : CephResp} (r : Rebalancer) {b : Int}
    (hb : c.backfillingPGs = some b) (hle : b ≤ r.maxBackfillPGsAllowed)
    (hp : c.recoveringPGs = none) :
    DoReweight c r = (r, [.backfillingPGs, .recoveringPGs]) := by
  unfold DoReweight
  rw [hb]
  simp only [if_neg (not_lt.mpr hle)]
  rw [hp]

lemma DoReweight_recovery_high {c : CephResp} (r : Rebalancer) {b p : Int}
    (hb : c.backfillingPGs = some b) (hle : b ≤ r.maxBackfillPGsAllowed)
    (hp : c.recoveringPGs = some p) (hgt : p > r.maxRecoveryPGsAllowed) :
    DoReweight c r = (r, [.backfillingPGs, .recoveringPGs]) := by
  unfold DoReweight
  rw [hb]
  simp only [if_neg (not_lt.mpr hle)]
  rw [hp]
  simp only [if_pos hgt]

lemma DoReweight_gate_open {c : CephResp} (r : Rebalancer) {b p : Int}
    (hb : c.backfillingPGs = some b) (hble : b ≤ r.maxBackfillPGsAllowed)
    (hp : c.recoveringPGs = some p) (hple : p ≤ r.maxRecoveryPGsAllowed) :
    DoReweight c r =
      ({ r with targetCrushWeightMap := (cycleCore c r).targetCrushWeightMap,
                crushWeightMap := (cycleCore c r).crushWeightMap },
       [.backfillingPGs, .recoveringPGs, .osdTree] ++ (cycleCore c r).calls) := by
  unfold DoReweight cycleCore
  rw [hb]
  simp only [if_neg (not_lt.mpr hble)]
  rw [hp]
  simp only [if_neg (not_lt.mpr hple)]

/-! ### Whole-fold lemmas for dry-run and for a failed snapshot -/

lemma foldl_dryRun (c : CephResp) (inc : ℚ) (cws : WMap) :
    ∀ (l : WMap) (acc : CycleAcc),
      (l.foldl (processOSD c true inc cws) acc).crushWeightMap = acc.crushWeightMap ∧
      (l.foldl (processOSD c true inc cws) acc).calls = acc.calls := by
  intro l
  induction l with
  | nil => exact fun acc => ⟨rfl, rfl⟩
  | cons e l' ih =>
    intro acc
    rw [List.foldl_cons]
    rw [processOSD_drop (nodeAction_dryRun_isApply_false _ _ _ _ _ _)]
    exact ih _

lemma foldl_cws_nil (c : CephResp) (d : Bool) (inc : ℚ) :
    ∀ (l : WMap) (acc : CycleAcc),
      l.foldl (processOSD c d inc []) acc =
        ⟨l.foldl (fun t e => mapErase t e.1) acc.targetCrushWeightMap,
         acc.crushWeightMap, acc.calls⟩ := by
  intro l
  induction l with
  | nil => exact fun acc => rfl
  | cons e l' ih =>
    intro acc
    rw [List.foldl_cons, List.foldl_cons]
    have hd : (nodeAction c.crushReweight d inc [] acc.crushWeightMap
        e.1 e.2).isApplyAction = false := by
      simp [nodeAction, mapLookup, NodeAction.isApplyAction]
    rw [processOSD_drop hd]
    exact ih _

lemma foldl_mapErase_eq_nil :
    ∀ (l : WMap) (a : WMap), (∀ p ∈ a, p.1 ∈ l.map Prod.fst) →
      l.foldl (fun t (e : Int × ℚ) => mapErase t e.1) a = [] := by
  intro l
  induction l with
  | nil =>
    intro a h
    cases a with
    | nil => rfl
    | cons q a' => exact absurd (h q (List.mem_cons_self _ _)) (by simp)
  | cons e l' ih =>
    intro a h
    rw [List.foldl_cons]
    refine ih _ (fun p hp => ?_)
    obtain ⟨hpa, hpne⟩ := mem_mapErase.mp hp
    have := h p hpa
    rw [List.map_cons, List.mem_cons] at this
    rcases this with hc | hc
    · exact absurd hc hpne
    · exact hc

end Archimedes

namespace Archimedes

/-! ### Claim C6 -/

/-- Claim C6 (confirmed): for every cycle in which the backfilling count
exceeds the backfill ceiling or the recovering count exceeds the recovery
ceiling, zero apply (reweight) commands are issued during that cycle and
`targetCrushWeightMap` is unchanged by that cycle. -/
theorem C6_gate_hold_no_mutation (r : Rebalancer) (c : CephResp)
    (h : (∃ b, c.backfillingPGs = some b ∧ b > r.maxBackfillPGsAllowed) ∨
         (∃ p, c.recoveringPGs = some p ∧ p > r.maxRecoveryPGsAllowed)) :
    applies (DoReweight c r).2 = [] ∧
    (DoReweight c r).1.targetCrushWeightMap = r.targetCrushWeightMap := by
  rcases h with ⟨b, hb, hgt⟩ | ⟨p, hp, hgt⟩
  · rw [DoReweight_backfill_high r hb hgt]
    exact ⟨rfl, rfl⟩
  · cases hbf : c.backfillingPGs with
    | none => rw [DoReweight_backfill_err r hbf]; exact ⟨rfl, rfl⟩
    | some b =>
      by_cases hble : b ≤ r.maxBackfillPGsAllowed
      · rw [DoReweight_recovery_high r hbf hble hp hgt]; exact ⟨rfl, rfl⟩
      · rw [DoReweight_backfill_high r hbf (not_le.mp hble)]; exact ⟨rfl, rfl⟩

/-- Witness for C6 at a concrete held state (100 backfilling PGs against
a ceiling of 10). -/
theorem C6_witness :
    applies (DoReweight cGateHigh rW).2 = [] ∧
    (DoReweight cGateHigh rW).1.targetCrushWeightMap = rW.targetCrushWeightMap :=
  C6_gate_hold_no_mutation rW cGateHigh (Or.inl ⟨100, rfl, by norm_num [rW, cGateHigh]⟩)

/-! ### Claim C9 -/

/-- Claim C9 (confirmed): every managed node whose snapshot weight
satisfies `currentWeight ≥ targetWeight` at the start of a cycle is
removed from `targetCrushWeightMap` by that cycle, and no `CrushReweight`
call is issued for it. -/
theorem C9_achieved_removed_no_apply (r : Rebalancer) (c : CephResp) (osd : Int)
    (tw cw : ℚ) (b p : Int)
    (hnd : (r.targetCrushWeightMap.map Prod.fst).Nodup)
    (hb : c.backfillingPGs = some b) (hble : b ≤ r.maxBackfillPGsAllowed)
    (hp : c.recoveringPGs = some p) (hple : p ≤ r.maxRecoveryPGsAllowed)
    (htw : mapLookup r.targetCrushWeightMap osd = some tw)
    (hcw : mapLookup (extractCurrentWeights c r) osd = some cw)
    (hge : cw ≥ tw) :
    mapLookup (DoReweight c r).1.targetCrushWeightMap osd = none ∧
    osdCalls (DoReweight c r).2 osd = [] := by
  rw [DoReweight_gate_open r hb hble hp hple]
  have hA : nodeAction c.crushReweight r.dryRun r.weightIncrement
      (extractCurrentWeights c r) r.crushWeightMap osd tw = .dropAchieved := by
    unfold nodeAction
    rw [hcw]
    simp [hge]
  obtain ⟨_, iDrop⟩ := foldl_key c r.dryRun r.weightIncrement (extractCurrentWeights c r)
    r.targetCrushWeightMap ⟨r.targetCrushWeightMap, r.crushWeightMap, []⟩ osd tw hnd
    (mapLookup_eq_some_mem htw)
  obtain ⟨j1, j2, j3⟩ := iDrop (by rw [show (⟨r.targetCrushWeightMap, r.crushWeightMap,
    []⟩ : CycleAcc).crushWeightMap = r.crushWeightMap from rfl, hA]; rfl)
  refine ⟨j1, ?_⟩
  show osdCalls ([CephCall.backfillingPGs, CephCall.recoveringPGs, CephCall.osdTree]
      ++ (cycleCore c r).calls) osd = []
  rw [osdCalls_append,
    show osdCalls [CephCall.backfillingPGs, CephCall.recoveringPGs, CephCall.osdTree] osd
      = [] from rfl, List.nil_append]
  exact j3.trans rfl

/-- Witness for C9: OSD 1 with target 4 and snapshot weight 5 is removed
with no apply call. -/
theorem C9_witness :
    mapLookup (DoReweight cAch rW).1.targetCrushWeightMap 1 = none ∧
    osdCalls (DoReweight cAch rW).2 1 = [] :=
  C9_achieved_removed_no_apply rW cAch 1 4 5 0 0 (by norm_num [rW]) rfl
    (by norm_num [rW]) rfl (by norm_num [rW]) rfl rfl (by norm_num)

/-! ### Claim C10 -/

/-- Claim C10 (confirmed): within a cycle, the `RecoveringPGs` query is
made only if `BackfillingPGs` returned without error with a count within
the ceiling; a cycle ended by the backfill check makes no further
collaborator calls of any kind. -/
theorem C10_gate_order (r : Rebalancer) (c : CephResp) :
    (CephCall.recoveringPGs ∈ (DoReweight c r).2 →
      ∃ b, c.backfillingPGs = some b ∧ b ≤ r.maxBackfillPGsAllowed) ∧
    ((c.backfillingPGs = none ∨
        ∃ b, c.backfillingPGs = some b ∧ b > r.maxBackfillPGsAllowed) →
      (DoReweight c r).2 = [CephCall.backfillingPGs]) := by
  constructor
  · intro hmem
    cases hbf : c.backfillingPGs with
    | none => rw [DoReweight_backfill_err r hbf] at hmem; simp at hmem
    | some b =>
      by_cases hble : b ≤ r.maxBackfillPGsAllowed
      · exact ⟨b, rfl, hble⟩
      · rw [DoReweight_backfill_high r hbf (not_le.mp hble)] at hmem
        simp at hmem
  · rintro (hbf | ⟨b, hbf, hgt⟩)
    · rw [DoReweight_backfill_err r hbf]
    · rw [DoReweight_backfill_high r hbf hgt]

/-- Witness for C10: with an erring backfill query the trace is exactly
the single backfill call. -/
theorem C10_witness : (DoReweight cBackErr rW).2 = [CephCall.backfillingPGs] :=
  (C10_gate_order rW cBackErr).2 (Or.inl rfl)

end Archimedes

namespace Archimedes

/-! ### Claim C1 -/

/-- Counterexample to claim C1 as stated: with one managed OSD and an
erring topology query, the cycle does mutate `targetCrushWeightMap` (it
empties it), so the map is not "exactly the same after the cycle". -/
theorem C1_counterexample :
    (DoReweight cTreeErr rC1).1.targetCrushWeightMap ≠ rC1.targetCrushWeightMap := by
  norm_num [DoReweight, cTreeErr, rC1, extractCurrentWeights, processOSD, nodeAction,
    plannedWeight, roundToPlaces, mapLookup, mapErase, mapInsert]

/-- Claim C1 (corrected): if the topology query fails during a
gate-passed cycle, no reweight command is issued and the ledger is
unchanged, but every managed node is deleted from `targetCrushWeightMap`
(the `nil` weight view makes each node look absent from the tree), so the
map is emptied rather than left intact. -/
theorem C1_snapshot_error_drains_targets (r : Rebalancer) (c : CephResp) (b p : Int)
    (hb : c.backfillingPGs = some b) (hble : b ≤ r.maxBackfillPGsAllowed)
    (hp : c.recoveringPGs = some p) (hple : p ≤ r.maxRecoveryPGsAllowed)
    (htree : c.osdTree = none) :
    applies (DoReweight c r).2 = [] ∧
    (DoReweight c r).1.targetCrushWeightMap = [] ∧
    (DoReweight c r).1.crushWeightMap = r.crushWeightMap := by
  rw [DoReweight_gate_open r hb hble hp hple]
  have hcws : extractCurrentWeights c r = [] := by
    unfold extractCurrentWeights
    rw [htree]
  have hcore : cycleCore c r =
      ⟨r.targetCrushWeightMap.foldl (fun t e => mapErase t e.1) r.targetCrushWeightMap,
       r.crushWeightMap, []⟩ := by
    rw [cycleCore_def, hcws]
    exact foldl_cws_nil c r.dryRun r.weightIncrement r.targetCrushWeightMap _
  refine ⟨?_, ?_, ?_⟩
  · show applies ([CephCall.backfillingPGs, CephCall.recoveringPGs, CephCall.osdTree]
        ++ (cycleCore c r).calls) = []
    rw [applies_append, hcore]
    rfl
  · show (cycleCore c r).targetCrushWeightMap = []
    rw [hcore]
    exact foldl_mapErase_eq_nil _ _ (fun q hq => List.mem_map_of_mem Prod.fst hq)
  · show (cycleCore c r).crushWeightMap = r.crushWeightMap
    rw [hcore]

/-- Witness for the corrected C1 at the concrete erring-snapshot state. -/
theorem C1_witness :
    applies (DoReweight cTreeErr rC1).2 = [] ∧
    (DoReweight cTreeErr rC1).1.targetCrushWeightMap = [] ∧
    (DoReweight cTreeErr rC1).1.crushWeightMap = rC1.crushWeightMap :=
  C1_snapshot_error_drains_targets rC1 cTreeErr 0 0 rfl (by norm_num [rC1]) rfl
    (by norm_num [rC1]) rfl

end Archimedes

namespace Archimedes

/-! ### Claim C2 -/

/-- Counterexample to claim C2 as stated: in live mode, with an empty
ledger and a collaborator whose `CrushReweight` always fails, the ledger
entry for OSD 1 is written anyway (the write precedes the command), so
the weight is not "recorded only on success". -/
theorem C2_counterexample :
    mapLookup rC1.crushWeightMap 1 = none ∧
    cApplyFail.crushReweight 1 3 = false ∧
    mapLookup (DoReweight cApplyFail rC1).1.crushWeightMap 1 = some 3 := by
  refine ⟨rfl, rfl, ?_⟩
  norm_num [DoReweight, cApplyFail, rC1, extractCurrentWeights, processOSD, nodeAction,
    plannedWeight, roundToPlaces, mapLookup, mapErase, mapInsert, osdNode, min_def]

/-- Claim C2 (corrected): in live mode, when the reweight command for a
node fails, the node's entry in `targetCrushWeightMap` is left untouched
for retry next cycle, but the `crushWeightMap` ledger entry is set to the
attempted weight regardless — `doReweight` writes the ledger before
issuing the command, so the weight is recorded on failure as well. -/
theorem C2_apply_failure_ledger_written (r : Rebalancer) (c : CephResp) (osd : Int)
    (tw cw : ℚ) (b p : Int)
    (hnd : (r.targetCrushWeightMap.map Prod.fst).Nodup)
    (hb : c.backfillingPGs = some b) (hble : b ≤ r.maxBackfillPGsAllowed)
    (hp : c.recoveringPGs = some p) (hple : p ≤ r.maxRecoveryPGsAllowed)
    (hdry : r.dryRun = false)
    (htw : mapLookup r.targetCrushWeightMap osd = some tw)
    (hcw : mapLookup (extractCurrentWeights c r) osd = some cw)
    (hlt : cw < tw)
    (hpos : 0 < plannedWeight cw r.weightIncrement tw)
    (hnp : mapLookup r.crushWeightMap osd ≠ some (plannedWeight cw r.weightIncrement tw))
    (hfail : c.crushReweight osd (plannedWeight cw r.weightIncrement tw) = false) :
    mapLookup (DoReweight c r).1.crushWeightMap osd
        = some (plannedWeight cw r.weightIncrement tw) ∧
    mapLookup (DoReweight c r).1.targetCrushWeightMap osd = some tw := by
  rw [DoReweight_gate_open r hb hble hp hple]
  have hA : nodeAction c.crushReweight r.dryRun r.weightIncrement
      (extractCurrentWeights c r) r.crushWeightMap osd tw
      = .applyWeight (plannedWeight cw r.weightIncrement tw)
          (c.crushReweight osd (plannedWeight cw r.weightIncrement tw)) := by
    rw [hdry]
    exact nodeAction_eq_applyWeight hcw hlt hpos hnp
  obtain ⟨iApply, _⟩ := foldl_key c r.dryRun r.weightIncrement (extractCurrentWeights c r)
    r.targetCrushWeightMap ⟨r.targetCrushWeightMap, r.crushWeightMap, []⟩ osd tw hnd
    (mapLookup_eq_some_mem htw)
  obtain ⟨j1, j2, j3⟩ := iApply _ _ hA
  constructor
  · show mapLookup (cycleCore c r).crushWeightMap osd
        = some (plannedWeight cw r.weightIncrement tw)
    rw [cycleCore_def]
    exact j2
  · show mapLookup (cycleCore c r).targetCrushWeightMap osd = some tw
    rw [cycleCore_def]
    exact j1.trans htw

/-- Witness for the corrected C2 at the concrete failing-apply state:
the attempted weight `min(2+1, 5) = 3` lands in the ledger and the target
entry survives. -/
theorem C2_witness :
    mapLookup (DoReweight cApplyFail rC1).1.crushWeightMap 1
        = some (plannedWeight 2 rC1.weightIncrement 5) ∧
    mapLookup (DoReweight cApplyFail rC1).1.targetCrushWeightMap 1 = some 5 :=
  C2_apply_failure_ledger_written rC1 cApplyFail 1 5 2 0 0 (by norm_num [rC1]) rfl
    (by norm_num [rC1]) rfl (by norm_num [rC1]) rfl rfl rfl (by norm_num)
    (by rw [plannedWeight_eq]; norm_num [rC1, min_def])
    (by simp [rC1, mapLookup]) rfl

end Archimedes

namespace Archimedes

/-! ### Claim C3 -/

/-- Claim C3 (code bug): the spec and the source comment call for the
next weight to be the 4-decimal rounding of `currentWeight + increment`
(capped at the target), but the code's expression
`((cw+inc)*tenExp)/tenExp` contains no rounding call and is the identity:
at `cw = 0.01`, `inc = 0.00001`, `tw = 1` the code produces `0.01001`
while the documented rounding gives `0.01`. -/
theorem C3_planner_rounding_absent :
    plannedWeight (1/100) (1/100000) 1 = 1001/100000 ∧
    specRoundTo4 (1/100 + 1/100000) = 1/100 ∧
    plannedWeight (1/100) (1/100000) 1 ≠ specRoundTo4 (1/100 + 1/100000) := by
  have h1 : plannedWeight (1/100) (1/100000) 1 = 1001/100000 := by
    rw [plannedWeight_eq]
    norm_num [min_def]
  have h2 : specRoundTo4 (1/100 + 1/100000) = 1/100 := by
    unfold specRoundTo4 specRound roundToPlaces
    norm_num
  refine ⟨h1, h2, ?_⟩
  rw [h1, h2]
  norm_num

/-! ### Claim C4 -/

/-- Claim C4 (code bug): the spec's plateau rule says that when
`round(current + inc, 4)` equals the tracker's last-applied value the
node is removed with no new apply.  At `current = 0.01`,
`inc = 0.00001`, `lastApplied = 0.01`, `target = 1` that rounding equals
the last-applied value, yet the cycle issues a fresh apply of the
unrounded `0.01001` and keeps the node in `targetCrushWeightMap`,
because the code compares the unrounded weight. -/
theorem C4_plateau_check_unrounded :
    mapLookup r4.crushWeightMap 1 = some (specRoundTo4 (1/100 + 1/100000)) ∧
    CephCall.crushReweight 1 (1001/100000) ∈ (DoReweight c4 r4).2 ∧
    mapLookup (DoReweight c4 r4).1.targetCrushWeightMap 1 = some 1 := by
  refine ⟨?_, ?_, ?_⟩
  · have h2 : specRoundTo4 (1/100 + 1/100000) = 1/100 := by
      unfold specRoundTo4 specRound roundToPlaces
      norm_num
    rw [h2]
    rfl
  · norm_num [DoReweight, c4, r4, extractCurrentWeights, processOSD, nodeAction,
      plannedWeight, roundToPlaces, mapLookup, mapErase, mapInsert, osdNode, min_def]
  · norm_num [DoReweight, c4, r4, extractCurrentWeights, processOSD, nodeAction,
      plannedWeight, roundToPlaces, mapLookup, mapErase, mapInsert, osdNode, min_def]

end Archimedes

namespace Archimedes

/-! ### Claim C5 -/

/-- Counterexample to claim C5 as stated: with arbitrary collaborator
responses the ledger writes can decrease.  OSD 1 (target 10, increment 1)
is reported at weight 5 in cycle one (write 6) and at weight 0 in cycle
two (write 1), and `1 < 6`. -/
theorem C5_counterexample :
    mapLookup (DoReweight cSnapHigh rC5).1.crushWeightMap 1 = some 6 ∧
    mapLookup (DoReweight cSnapLow (DoReweight cSnapHigh rC5).1).1.crushWeightMap 1
        = some 1 ∧
    ¬ ((6 : ℚ) ≤ 1) := by
  refine ⟨?_, ?_, by norm_num⟩
  · norm_num [DoReweight, cSnapHigh, rC5, extractCurrentWeights, processOSD, nodeAction,
      plannedWeight, roundToPlaces, mapLookup, mapErase, mapInsert, osdNode, min_def]
  · have h1 : (DoReweight cSnapHigh rC5).1 = ⟨10, 10, [(1, 10)], 1, false, [(1, 6)]⟩ := by
      norm_num [DoReweight, cSnapHigh, rC5, extractCurrentWeights, processOSD, nodeAction,
        plannedWeight, roundToPlaces, mapLookup, mapErase, mapInsert, osdNode, min_def]
      simp
    rw [h1]
    norm_num [DoReweight, cSnapLow, extractCurrentWeights, processOSD, nodeAction,
      plannedWeight, roundToPlaces, mapLookup, mapErase, mapInsert, osdNode, min_def]

/-- Claim C5 (corrected): a ledger write for a node never exceeds that
node's target weight; and the writes never decrease provided the
increment is non-negative and each cycle's snapshot weight for the node
is at least the node's last-applied ledger value.  Without those
monotone-snapshot assumptions the original claim is false (see the
counterexample): the written value `min(current + inc, target)` follows
the snapshot downward. -/
theorem C5_ledger_bounded_and_monotone (r : Rebalancer) (c : CephResp)
    (osd : Int) (tw : ℚ)
    (hnd : (r.targetCrushWeightMap.map Prod.fst).Nodup)
    (htw : mapLookup r.targetCrushWeightMap osd = some tw)
    (hinc : 0 ≤ r.weightIncrement)
    (hbound : ∀ w0, mapLookup r.crushWeightMap osd = some w0 → w0 ≤ tw)
    (hmono : ∀ cw, mapLookup (extractCurrentWeights c r) osd = some cw →
      ∀ w0, mapLookup r.crushWeightMap osd = some w0 → w0 ≤ cw) :
    ∀ w1, mapLookup (DoReweight c r).1.crushWeightMap osd = some w1 →
      w1 ≤ tw ∧ ∀ w0, mapLookup r.crushWeightMap osd = some w0 → w0 ≤ w1 := by
  have base : ∀ w1, mapLookup r.crushWeightMap osd = some w1 →
      w1 ≤ tw ∧ ∀ w0, mapLookup r.crushWeightMap osd = some w0 → w0 ≤ w1 :=
    fun w1 h => ⟨hbound w1 h,
      fun w0 hw0 => le_of_eq (Option.some.inj (hw0.symm.trans h))⟩
  intro w1 hw1
  cases hbf : c.backfillingPGs with
  | none =>
    rw [DoReweight_backfill_err r hbf] at hw1
    exact base w1 hw1
  | some b =>
    by_cases hble : b ≤ r.maxBackfillPGsAllowed
    · cases hrp : c.recoveringPGs with
      | none =>
        rw [DoReweight_recovery_err r hbf hble hrp] at hw1
        exact base w1 hw1
      | some p =>
        by_cases hple : p ≤ r.maxRecoveryPGsAllowed
        · rw [DoReweight_gate_open r hbf hble hrp hple] at hw1
          obtain ⟨iApply, iDrop⟩ := foldl_key c r.dryRun r.weightIncrement
            (extractCurrentWeights c r) r.targetCrushWeightMap
            ⟨r.targetCrushWeightMap, r.crushWeightMap, []⟩ osd tw hnd
            (mapLookup_eq_some_mem htw)
          by_cases hAp : (nodeAction c.crushReweight r.dryRun r.weightIncrement
              (extractCurrentWeights c r) r.crushWeightMap osd tw).isApplyAction = true
          · obtain ⟨w, ok, hA⟩ := isApplyAction_true hAp
            obtain ⟨j1, j2, j3⟩ := iApply w ok hA
            have hw1c : mapLookup (cycleCore c r).crushWeightMap osd = some w1 := hw1
            rw [cycleCore_def] at hw1c
            rw [j2] at hw1c
            have hww : w = w1 := Option.some.inj hw1c
            obtain ⟨cw, hcw, hlt, hwp, hpos, _, _, _⟩ := nodeAction_apply_inv hA
            rw [plannedWeight_eq] at hwp
            constructor
            · rw [← hww, hwp]
              exact min_le_right _ _
            · intro w0 hw0
              have m1 : w0 ≤ cw := hmono cw hcw w0 hw0
              have m2 : w0 ≤ tw := hbound w0 hw0
              have : w0 ≤ min (cw + r.weightIncrement) tw :=
                le_min (m1.trans (le_add_of_nonneg_right hinc)) m2
              rw [← hww, hwp]
              exact this
          · obtain ⟨j1, j2, j3⟩ := iDrop (Bool.not_eq_true _ ▸ hAp)
            have hw1c : mapLookup (cycleCore c r).crushWeightMap osd = some w1 := hw1
            rw [cycleCore_def] at hw1c
            rw [j2] at hw1c
            exact base w1 hw1c
        · rw [DoReweight_recovery_high r hbf hble hrp (not_le.mp hple)] at hw1
          exact base w1 hw1
    · rw [DoReweight_backfill_high r hbf (not_le.mp hble)] at hw1
      exact base w1 hw1

/-- Witness for the corrected C5: in the first cycle OSD 1 (target 10,
empty ledger, snapshot weight 5) gets write 6, which respects the target
bound. -/
theorem C5_witness :
    mapLookup (DoReweight cSnapHigh rC5).1.crushWeightMap 1 = some 6 ∧ (6 : ℚ) ≤ 10 := by
  have heval : mapLookup (DoReweight cSnapHigh rC5).1.crushWeightMap 1 = some 6 := by
    norm_num [DoReweight, cSnapHigh, rC5, extractCurrentWeights, processOSD, nodeAction,
      plannedWeight, roundToPlaces, mapLookup, mapErase, mapInsert, osdNode, min_def]
  refine ⟨heval, ?_⟩
  exact (C5_ledger_bounded_and_monotone rC5 cSnapHigh 1 10 (by norm_num [rC5]) rfl
    (by norm_num [rC5]) (fun w0 h => by simp [rC5, mapLookup] at h)
    (fun cw _ w0 h => by simp [rC5, mapLookup] at h) 6 heval).1

end Archimedes

namespace Archimedes

/-! ### Claim C7 -/

/-- Counterexample to claim C7 as stated: under dry-run the managed node
(OSD 1, present in the topology at weight 2) is removed, but the
would-be weight is not recorded anywhere — the Convergence Tracker
(`crushWeightMap`) stays empty, contradicting "records the would-be
weight in the Convergence Tracker". -/
theorem C7_counterexample :
    mapLookup (DoReweight cDry rDry).1.targetCrushWeightMap 1 = none ∧
    (DoReweight cDry rDry).1.crushWeightMap = [] := by
  refine ⟨?_, ?_⟩
  · norm_num [DoReweight, cDry, rDry, extractCurrentWeights, processOSD, nodeAction,
      plannedWeight, roundToPlaces, mapLookup, mapErase, mapInsert, osdNode, min_def]
  · norm_num [DoReweight, cDry, rDry, extractCurrentWeights, processOSD, nodeAction,
      plannedWeight, roundToPlaces, mapLookup, mapErase, mapInsert, osdNode, min_def]
    simp

/-- Claim C7 (corrected): under dry-run, every managed node present in
the topology snapshot is removed from `targetCrushWeightMap` by one
cycle's evaluation and no `CrushReweight` command is ever issued; the
Convergence Tracker, however, is not written at all — the dry-run branch
deletes the node without recording the would-be weight. -/
theorem C7_dryRun_removes_without_apply (r : Rebalancer) (c : CephResp) (osd : Int)
    (tw cw : ℚ) (b p : Int)
    (hdry : r.dryRun = true)
    (hnd : (r.targetCrushWeightMap.map Prod.fst).Nodup)
    (hb : c.backfillingPGs = some b) (hble : b ≤ r.maxBackfillPGsAllowed)
    (hp : c.recoveringPGs = some p) (hple : p ≤ r.maxRecoveryPGsAllowed)
    (htw : mapLookup r.targetCrushWeightMap osd = some tw)
    (hcw : mapLookup (extractCurrentWeights c r) osd = some cw) :
    mapLookup (DoReweight c r).1.targetCrushWeightMap osd = none ∧
    (DoReweight c r).1.crushWeightMap = r.crushWeightMap ∧
    applies (DoReweight c r).2 = [] := by
  rw [DoReweight_gate_open r hb hble hp hple]
  have hAd : (nodeAction c.crushReweight r.dryRun r.weightIncrement
      (extractCurrentWeights c r) r.crushWeightMap osd tw).isApplyAction = false := by
    rw [hdry]
    exact nodeAction_dryRun_isApply_false _ _ _ _ _ _
  obtain ⟨_, iDrop⟩ := foldl_key c r.dryRun r.weightIncrement (extractCurrentWeights c r)
    r.targetCrushWeightMap ⟨r.targetCrushWeightMap, r.crushWeightMap, []⟩ osd tw hnd
    (mapLookup_eq_some_mem htw)
  obtain ⟨j1, j2, j3⟩ := iDrop hAd
  obtain ⟨k1, k2⟩ := foldl_dryRun c r.weightIncrement (extractCurrentWeights c r)
    r.targetCrushWeightMap ⟨r.targetCrushWeightMap, r.crushWeightMap, []⟩
  refine ⟨j1, ?_, ?_⟩
  · show (cycleCore c r).crushWeightMap = r.crushWeightMap
    rw [cycleCore_def, hdry]
    exact k1
  · show applies ([CephCall.backfillingPGs, CephCall.recoveringPGs, CephCall.osdTree]
        ++ (cycleCore c r).calls) = []
    rw [applies_append, cycleCore_def, hdry, k2]
    rfl

/-- Witness for the corrected C7 at the concrete dry-run state. -/
theorem C7_witness :
    mapLookup (DoReweight cDry rDry).1.targetCrushWeightMap 1 = none ∧
    (DoReweight cDry rDry).1.crushWeightMap = rDry.crushWeightMap ∧
    applies (DoReweight cDry rDry).2 = [] :=
  C7_dryRun_removes_without_apply rDry cDry 1 5 2 0 0 rfl (by norm_num [rDry]) rfl
    (by norm_num [rDry]) rfl (by norm_num [rDry]) rfl rfl

/-! ### Claim C8 -/

/-- Counterexample to claim C8 as stated: with targets
`{1: 7.4999, 2: 15.4999}`, increment 0 and a zero-node topology, the
first cycle does not leave the target map unchanged — both ids are
absent from the topology, so both are removed. -/
theorem C8_counterexample :
    (DoReweight c8 r8).1.targetCrushWeightMap ≠ r8.targetCrushWeightMap := by
  norm_num [DoReweight, c8, r8, extractCurrentWeights, processOSD, nodeAction,
    plannedWeight, roundToPlaces, mapLookup, mapErase, mapInsert]
  simp

/-- Claim C8 (corrected): with targets `{1: 7.4999, 2: 15.4999}`,
increment 0 and a zero-node topology, one cycle issues zero apply
commands, but instead of keeping the targets forever both nodes are
dropped (absent from the topology), emptying the map; every later cycle
is then a no-op on the empty map. -/
theorem C8_empty_topology_eval :
    applies (DoReweight c8 r8).2 = [] ∧
    (DoReweight c8 r8).1.targetCrushWeightMap = [] ∧
    DoReweight c8 (DoReweight c8 r8).1 =
      ((DoReweight c8 r8).1,
       [CephCall.backfillingPGs, CephCall.recoveringPGs, CephCall.osdTree]) := by
  have h1 : (DoReweight c8 r8).1 = ⟨10, 10, [], 0, false, []⟩ := by
    norm_num [DoReweight, c8, r8, extractCurrentWeights, processOSD, nodeAction,
      plannedWeight, roundToPlaces, mapLookup, mapErase, mapInsert]
  refine ⟨?_, ?_, ?_⟩
  · norm_num [DoReweight, c8, r8, extractCurrentWeights, processOSD, nodeAction,
      plannedWeight, roundToPlaces, mapLookup, mapErase, mapInsert, applies, isApply]
  · rw [h1]
  · rw [h1]
    norm_num [DoReweight, c8, extractCurrentWeights, mapLookup]

end Archimedes
